import Mathlib

set_option maxRecDepth 8192

/-!
Verification of the Employee-List-Formatter repository.

The repository contains two versions of the same Streamlit program:
`src/Employee_List_Formatter.py` (embedded here at top level) and
`src/unnamed/part_000` (a file whose own header names it `app.py`; embedded
here in namespace `App`).  Both parse a JSON payload, flatten
`payload["department_employees"]` into employee entries, format phone
numbers, deduplicate, and render a text directory.

Modelling conventions for the shallow embedding of the Python code:
* A parsed JSON document (the Python object produced by `json.loads`) is a
  value of the inductive type `Json`.  JSON numbers are modelled as integers;
  only their truthiness (zero versus non-zero) is ever consulted by the code.
* Python strings are Lean `String`s.  `str.strip()` / `rstrip()` are modelled
  with `Char.isWhitespace` (space, tab, CR, LF); `re.sub(r"\D+", "", s)`
  keeps exactly the ASCII decimal digits (`Char.isDigit`).
* Code that can raise (`AttributeError` from calling `.get`/`.strip` on a
  non-dict/non-string, `TypeError` from iterating a non-iterable) returns
  `Except PyErr`.  Pure total functions stay plain functions.
-/

/-- A parsed JSON document, i.e. the Python value `json.loads` returns. -/
inductive Json where
  | null
  | bool (b : Bool)
  | num (n : Int)
  | str (s : String)
  | arr (elems : List Json)
  | obj (fields : List (String × Json))

/-- The Python exceptions the embedded code can raise. -/
inductive PyErr where
  | typeError
  | attributeError
deriving DecidableEq, Repr

/-- Python truthiness of a JSON value (`bool(x)`). -/
def truthy : Json → Bool
  | .null => false
  | .bool b => b
  | .num n => n != 0
  | .str s => s != ""
  | .arr xs => !xs.isEmpty
  | .obj kvs => !kvs.isEmpty

/-- Python `a or b`. -/
def pyOr (a b : Json) : Json := if truthy a then a else b

/-- Dictionary lookup with default, the semantics of `d.get(k, dflt)` on a
dict `d` (JSON objects have unique keys, so first match is the match). -/
def lookupD (kvs : List (String × Json)) (k : String) (dflt : Json) : Json :=
  match kvs.find? (fun kv => kv.1 == k) with
  | some kv => kv.2
  | none => dflt

/-- Python `j.get(k, dflt)`: only dicts have `.get`; every other value
raises `AttributeError`. -/
def pyGet (j : Json) (k : String) (dflt : Json) : Except PyErr Json :=
  match j with
  | .obj kvs => .ok (lookupD kvs k dflt)
  | _ => .error .attributeError

/-- Python `for x in j`: lists yield their elements, strings their
characters (as 1-character strings), dicts their keys; anything else raises
`TypeError`. -/
def pyIter : Json → Except PyErr (List Json)
  | .arr xs => .ok xs
  | .str s => .ok (s.data.map (fun c => .str (String.mk [c])))
  | .obj kvs => .ok (kvs.map (fun kv => .str kv.1))
  | _ => .error .typeError

/-- Remove trailing whitespace from a character list (Python `rstrip()`). -/
def rstripL : List Char → List Char
  | [] => []
  | c :: r =>
    let t := rstripL r
    if t.isEmpty && c.isWhitespace then [] else c :: t

/-- Python `s.strip()`: drop leading and trailing whitespace. -/
def pyStrip (s : String) : String :=
  String.mk (rstripL (s.data.dropWhile Char.isWhitespace))

/-- `digits_only(s)`: `re.sub(r"\D+", "", s or "")` keeps only the digit
characters (the argument is always a string at the call sites). -/
def digits_only (s : String) : String :=
  String.mk (s.data.filter Char.isDigit)

/-- Python slice `s[a:b]` (for `0 ≤ a ≤ b ≤ len s`, the only uses here). -/
def pySlice (s : String) (a b : Nat) : String :=
  String.mk ((s.data.drop a).take (b - a))

/-- `format_us_phone` from `Employee_List_Formatter.py`: 10 digits are
formatted `(DDD) DDD-DDDD`, 11 digits starting with 1 drop the 1 first, and
anything else falls back to `(raw or "").strip()`. -/
def format_us_phone (raw : String) : String :=
  let d := digits_only raw
  if d.data.length = 10 then
    "(" ++ pySlice d 0 3 ++ ") " ++ pySlice d 3 6 ++ "-" ++ pySlice d 6 10
  else if d.data.length = 11 ∧ d.data.head? = some '1' then
    let d2 := String.mk d.data.tail
    "(" ++ pySlice d2 0 3 ++ ") " ++ pySlice d2 3 6 ++ "-" ++ pySlice d2 6 10
  else
    pyStrip raw

namespace App

/-- `format_us_phone` from `src/unnamed/part_000`: identical to the main
version except the fallback is `raw or ""`, i.e. the raw string untrimmed
(`s or ""` is the identity on strings). -/
def format_us_phone (raw : String) : String :=
  let d := digits_only raw
  if d.data.length = 10 then
    "(" ++ pySlice d 0 3 ++ ") " ++ pySlice d 3 6 ++ "-" ++ pySlice d 6 10
  else if d.data.length = 11 ∧ d.data.head? = some '1' then
    let d2 := String.mk d.data.tail
    "(" ++ pySlice d2 0 3 ++ ") " ++ pySlice d2 3 6 ++ "-" ++ pySlice d2 6 10
  else
    raw

end App

/-- A directory entry, the dict
`{name, position, office_raw, office_fmt, email}` built by the extractors. -/
structure Entry where
  name : String
  position : String
  office_raw : String
  office_fmt : String
  email : String
deriving DecidableEq, Repr

/-- `normalize(s)` from `Employee_List_Formatter.py`: `(s or "").strip()`.
The argument is whatever `emp.get(...)` produced, so a truthy non-string
raises `AttributeError` (no `.strip` attribute).  (The source calls this
`normalize`; Mathlib already owns that name, hence the suffix.) -/
def normalize_str (j : Json) : Except PyErr String :=
  if truthy j then
    match j with
    | .str s => .ok (pyStrip s)
    | _ => .error .attributeError
  else
    .ok ""

/-- The deduplication identity tuple `(name, position, office_raw, email)`. -/
abbrev Key := String × String × String × String

def key (e : Entry) : Key := (e.name, e.position, e.office_raw, e.email)

/-- Membership of a key in the `seen` set (modelled as the list of keys
added so far; Python set membership is exact tuple equality). -/
def keyMem (k : Key) : List Key → Bool
  | [] => false
  | k' :: r => if k = k' then true else keyMem k r

/-- The dedup loop shared verbatim by `to_entries` and
`to_directory_entries`: keep an entry iff its key has not been seen, adding
the key to `seen` as it is kept. -/
def dedupGo (seen : List Key) : List Entry → List Entry
  | [] => []
  | e :: rest =>
    if keyMem (key e) seen then dedupGo seen rest
    else e :: dedupGo (key e :: seen) rest

def dedup (entries : List Entry) : List Entry := dedupGo [] entries

/-- The per-employee body of the `to_entries` loop: normalize the name,
`continue` if it is empty, otherwise normalize the remaining fields and
append the entry. -/
def extract_emp (acc : List Entry) (emp : Json) : Except PyErr (List Entry) := do
  let name ← normalize_str (← pyGet emp "contact_name" (.str ""))
  if name = "" then
    pure acc
  else
    let position ← normalize_str (← pyGet emp "employee_position" (.str ""))
    let office_raw ← normalize_str (← pyGet emp "office_number" (.str ""))
    let email ← normalize_str (← pyGet emp "email_address" (.str ""))
    pure (acc ++ [Entry.mk name position office_raw
      (format_us_phone office_raw) email])

def extract_emps (acc : List Entry) : List Json → Except PyErr (List Entry)
  | [] => .ok acc
  | emp :: rest => do
    let acc' ← extract_emp acc emp
    extract_emps acc' rest

/-- One department block: `employees = (block or {}).get("employees", []) or []`
then the inner employee loop. -/
def extract_block (acc : List Entry) (block : Json) : Except PyErr (List Entry) := do
  let emps ← pyGet (pyOr block (.obj [])) "employees" (.arr [])
  let employees ← pyIter (pyOr emps (.arr []))
  extract_emps acc employees

def extract_blocks (acc : List Entry) : List Json → Except PyErr (List Entry)
  | [] => .ok acc
  | b :: rest => do
    let acc' ← extract_block acc b
    extract_blocks acc' rest

/-- The first phase of `to_entries`:
`dept_emps = payload.get("department_employees", []) or []` and the nested
loops building `entries` before deduplication. -/
def collect_entries (payload : Json) : Except PyErr (List Entry) := do
  let de ← pyGet payload "department_employees" (.arr [])
  let blocks ← pyIter (pyOr de (.arr []))
  extract_blocks [] blocks

/-- `to_entries` from `Employee_List_Formatter.py`: collect the entries in
traversal order, then run the dedup loop. -/
def to_entries (payload : Json) : Except PyErr (List Entry) :=
  (collect_entries payload).map dedup

namespace App

/-- `normalize_name` from part_000: `(name or "").strip()`. -/
def normalize_name (j : Json) : Except PyErr String :=
  if truthy j then
    match j with
    | .str s => .ok (pyStrip s)
    | _ => .error .attributeError
  else
    .ok ""

/-- `normalize_position` from part_000: `(pos or "").strip()`. -/
def normalize_position (j : Json) : Except PyErr String :=
  if truthy j then
    match j with
    | .str s => .ok (pyStrip s)
    | _ => .error .attributeError
  else
    .ok ""

/-- `normalize_email` from part_000:
`e = (email or "").strip(); return e if e else ""`. -/
def normalize_email (j : Json) : Except PyErr String := do
  let e ← (if truthy j then
      match j with
      | .str s => .ok (pyStrip s)
      | _ => .error .attributeError
    else
      .ok "")
  pure (if e = "" then "" else e)

/-- The per-employee body of the `to_directory_entries` loop.  Unlike the
main variant it normalizes all four fields before testing the name, and the
office field is stripped inline: `(e.get("office_number", "") or "").strip()`
(the same computation as `normalize_str`). -/
def extract_emp (acc : List Entry) (emp : Json) : Except PyErr (List Entry) := do
  let name ← normalize_name (← pyGet emp "contact_name" (.str ""))
  let position ← normalize_position (← pyGet emp "employee_position" (.str ""))
  let office ← normalize_str (← pyGet emp "office_number" (.str ""))
  let email ← normalize_email (← pyGet emp "email_address" (.str ""))
  if name = "" then
    pure acc
  else
    pure (acc ++ [Entry.mk name position office
      (App.format_us_phone office) email])

def extract_emps (acc : List Entry) : List Json → Except PyErr (List Entry)
  | [] => .ok acc
  | emp :: rest => do
    let acc' ← App.extract_emp acc emp
    App.extract_emps acc' rest

def extract_block (acc : List Entry) (block : Json) : Except PyErr (List Entry) := do
  let emps ← pyGet (pyOr block (.obj [])) "employees" (.arr [])
  let employees ← pyIter (pyOr emps (.arr []))
  App.extract_emps acc employees

def extract_blocks (acc : List Entry) : List Json → Except PyErr (List Entry)
  | [] => .ok acc
  | b :: rest => do
    let acc' ← App.extract_block acc b
    App.extract_blocks acc' rest

def collect_entries (payload : Json) : Except PyErr (List Entry) := do
  let de ← pyGet payload "department_employees" (.arr [])
  let blocks ← pyIter (pyOr de (.arr []))
  App.extract_blocks [] blocks

/-- `to_directory_entries` from part_000: collect then dedup (the dedup loop
is textually identical to the one in `to_entries`). -/
def to_directory_entries (payload : Json) : Except PyErr (List Entry) :=
  (App.collect_entries payload).map dedup

end App
/-- The list of lines one entry contributes in `render_directory`: the
four-space-indented name, then position / `Office:` / `Email:` lines only
when non-empty, then the blank separator line. -/
def entry_lines (e : Entry) : List String :=
  ["    " ++ e.name]
  ++ (if e.position = "" then [] else [e.position])
  ++ (if e.office_fmt = "" then [] else ["Office: " ++ e.office_fmt])
  ++ (if e.email = "" then [] else ["Email: " ++ e.email])
  ++ [""]

/-- Python `"\n".join(lines)`. -/
def joinNL : List String → String
  | [] => ""
  | [l] => l
  | l :: ls => l ++ "\n" ++ joinNL ls

/-- One step of `re.sub(r"\n{3,}", "\n\n", out)`: `k` counts the newlines
just emitted; a newline arriving when two are already standing is dropped,
so every maximal run of three or more newlines is cut down to two. -/
def collapseGo : Nat → List Char → List Char
  | _, [] => []
  | k, c :: rest =>
    if c = '\n' then
      if 2 ≤ k then collapseGo k rest
      else c :: collapseGo (k + 1) rest
    else c :: collapseGo 0 rest

def collapse_newlines (cs : List Char) : List Char := collapseGo 0 cs

/-- The shared post-processing tail of both renderers:
`re.sub(r"\n{3,}", "\n\n", out).rstrip() + "\n"`. -/
def postprocess (s : String) : String :=
  String.mk (rstripL (collapse_newlines s.data)) ++ "\n"

/-- `render_directory` from `Employee_List_Formatter.py`. -/
def render_directory (entries : List Entry) : String :=
  postprocess (joinNL (["## Employee Phone Number Directory", ""]
    ++ entries.flatMap entry_lines))

namespace App

/-- The lines one entry contributes in `render_directory_markdown`: unlike
the main renderer, an empty position still appends an (empty) line:
`lines.append(f"{e['position']}" if e["position"] else "")`. -/
def entry_lines (e : Entry) : List String :=
  ["    " ++ e.name, if e.position = "" then "" else e.position]
  ++ (if e.office_fmt = "" then [] else ["Office: " ++ e.office_fmt])
  ++ (if e.email = "" then [] else ["Email: " ++ e.email])
  ++ [""]

/-- `render_directory_markdown` from part_000.  Its header element carries
its own embedded newline, and the `[ln for ln in lines if ln is not None]`
filter is the identity (no line is ever `None`). -/
def render_directory_markdown (entries : List Entry) : String :=
  postprocess (joinNL (["## Employee Phone Number Directory\n"]
    ++ entries.flatMap App.entry_lines))

end App

/-- Concatenation of a list of strings. -/
def concatS : List String → String
  | [] => ""
  | s :: rest => s ++ concatS rest

/-- The block of text one entry contributes according to the specification
wording of C1: the name indented by exactly four spaces, the position on its
own line only if non-empty, `Office:`/`Email:` lines only if non-empty, and
a blank separator line after the entry. -/
def entry_block (e : Entry) : String :=
  "    " ++ e.name ++ "\n"
  ++ (if e.position = "" then "" else e.position ++ "\n")
  ++ (if e.office_fmt = "" then "" else "Office: " ++ e.office_fmt ++ "\n")
  ++ (if e.email = "" then "" else "Email: " ++ e.email ++ "\n")
  ++ "\n"

/-- The renderer output as described by claim C1: the fixed header line and
one blank line, each entry's block in order, then the post-processing
(collapse runs of three or more newlines to two, trim trailing whitespace,
end with exactly one newline). -/
def renderSpec (entries : List Entry) : String :=
  postprocess ("## Employee Phone Number Directory\n\n"
    ++ concatS (entries.map entry_block))

/-- A field value that `normalize_str` accepts: falsy (becomes `""`) or a
string.  Truthy non-strings raise `AttributeError` in the code. -/
def wfField (j : Json) : Bool :=
  !(truthy j) || (match j with | .str _ => true | _ => false)

/-- An employee record the extractors traverse without raising: a JSON
object whose four contact fields are absent, falsy, or strings. -/
def wfEmp : Json → Bool
  | .obj kvs =>
    wfField (lookupD kvs "contact_name" (.str "")) &&
    wfField (lookupD kvs "employee_position" (.str "")) &&
    wfField (lookupD kvs "office_number" (.str "")) &&
    wfField (lookupD kvs "email_address" (.str ""))
  | _ => false

/-- An `employees` value the extractors tolerate: falsy (treated as the
empty list) or an array of well-formed employee objects. -/
def wfEmps (j : Json) : Bool :=
  match j with
  | .arr es => es.all wfEmp
  | _ => !(truthy j)

/-- A department block the extractors tolerate: falsy (skipped via
`block or {}`) or an object with a tolerable `employees` value. -/
def wfBlock (b : Json) : Bool :=
  if truthy b then
    match b with
    | .obj kvs => wfEmps (lookupD kvs "employees" (.arr []))
    | _ => false
  else
    true

/-- A payload the extractors process without raising: a JSON object whose
`department_employees` value is absent, falsy, or an array of well-formed
blocks. -/
def wfPayload : Json → Bool
  | .obj kvs =>
    (match lookupD kvs "department_employees" (.arr []) with
     | .arr bs => bs.all wfBlock
     | j => !(truthy j))
  | _ => false

/-- The observable outcome of one click of the "Generate Directory" button.
`st.error` + `st.stop` on a parse failure is `invalidJson`, the
`st.warning` + `st.stop` branch for an empty entry list is `noData`, a
rendered directory is `success`, and an exception escaping `to_entries`
(which the handler does not catch) is `pyError`. -/
inductive RunOutcome where
  | invalidJson (msg : String)
  | noData
  | success (directory : String)
  | pyError (e : PyErr)
deriving DecidableEq, Repr

/-- The `st.button("Generate Directory")` handler from
`Employee_List_Formatter.py`, with the stdlib `json.loads` step abstracted
as an already-computed parse result (`Except.error msg` carries the
`JSONDecodeError` message interpolated into `"Invalid JSON: " + str(e)`). -/
def generate_directory (parsed : Except String Json) : RunOutcome :=
  match parsed with
  | .error msg => .invalidJson ("Invalid JSON: " ++ msg)
  | .ok payload =>
    match to_entries payload with
    | .error e => .pyError e
    | .ok entries =>
      if entries.isEmpty then .noData
      else .success (render_directory entries)

section PhoneLemmas

theorem digits_only_eq_self {s : String} (h : ∀ c ∈ s.data, c.isDigit = true) :
    digits_only s = s := by
  unfold digits_only
  rw [List.filter_eq_self.mpr h]

theorem digits_only_mk (l : List Char) :
    digits_only (String.mk l) = String.mk (l.filter Char.isDigit) := rfl

end PhoneLemmas

/-- C5: for every string of exactly 10 digit characters, both phone
formatters return `(d[0:3]) d[3:6]-d[6:10]`. -/
theorem C5_ten_digit_format (d : String)
    (hlen : d.data.length = 10) (hdig : ∀ c ∈ d.data, c.isDigit = true) :
    format_us_phone d =
      "(" ++ pySlice d 0 3 ++ ") " ++ pySlice d 3 6 ++ "-" ++ pySlice d 6 10 ∧
    App.format_us_phone d =
      "(" ++ pySlice d 0 3 ++ ") " ++ pySlice d 3 6 ++ "-" ++ pySlice d 6 10 := by
  have hself : digits_only d = d := digits_only_eq_self hdig
  constructor
  · unfold format_us_phone
    rw [hself]
    rw [if_pos hlen]
  · unfold App.format_us_phone
    rw [hself]
    rw [if_pos hlen]

/-- Witness for C5 at the concrete input "5551234567". -/
theorem C5_ten_digit_format_witness :
    ("5551234567" : String).data.length = 10 ∧
    (∀ c ∈ ("5551234567" : String).data, c.isDigit = true) ∧
    format_us_phone "5551234567" =
      "(" ++ pySlice "5551234567" 0 3 ++ ") " ++ pySlice "5551234567" 3 6 ++
        "-" ++ pySlice "5551234567" 6 10 ∧
    App.format_us_phone "5551234567" =
      "(" ++ pySlice "5551234567" 0 3 ++ ") " ++ pySlice "5551234567" 3 6 ++
        "-" ++ pySlice "5551234567" 6 10 :=
  ⟨by decide, by decide,
    C5_ten_digit_format "5551234567" (by decide) (by decide)⟩

/-- C6: for every string of exactly 11 digit characters starting with '1',
formatting it equals formatting the string with its first character removed
(for both variants of the formatter). -/
theorem C6_eleven_digit_drop_one (s : String)
    (hlen : s.data.length = 11) (hdig : ∀ c ∈ s.data, c.isDigit = true)
    (hone : s.data.head? = some '1') :
    format_us_phone s = format_us_phone (String.mk s.data.tail) ∧
    App.format_us_phone s = App.format_us_phone (String.mk s.data.tail) := by
  have hself : digits_only s = s := digits_only_eq_self hdig
  have htdig : ∀ c ∈ s.data.tail, c.isDigit = true :=
    fun c hc => hdig c (List.mem_of_mem_tail hc)
  have htself : digits_only (String.mk s.data.tail) = String.mk s.data.tail := by
    rw [digits_only_mk, List.filter_eq_self.mpr htdig]
  have htlen : (s.data.tail).length = 10 := by
    rw [List.length_tail, hlen]
  have h10 : ¬ s.data.length = 10 := by omega
  constructor
  · conv_lhs => unfold format_us_phone
    conv_rhs => unfold format_us_phone
    rw [hself, htself]
    rw [if_neg h10, if_pos ⟨hlen, hone⟩, if_pos htlen]
  · conv_lhs => unfold App.format_us_phone
    conv_rhs => unfold App.format_us_phone
    rw [hself, htself]
    rw [if_neg h10, if_pos ⟨hlen, hone⟩, if_pos htlen]

/-- Witness for C6 at the concrete input "15551234567". -/
theorem C6_eleven_digit_drop_one_witness :
    ("15551234567" : String).data.length = 11 ∧
    (∀ c ∈ ("15551234567" : String).data, c.isDigit = true) ∧
    ("15551234567" : String).data.head? = some '1' ∧
    format_us_phone "15551234567" =
      format_us_phone (String.mk ("15551234567" : String).data.tail) ∧
    App.format_us_phone "15551234567" =
      App.format_us_phone (String.mk ("15551234567" : String).data.tail) :=
  ⟨by decide, by decide, by decide,
    C6_eleven_digit_drop_one "15551234567" (by decide) (by decide) (by decide)⟩

/-- C3 counterexample: the part_000 variant of the formatter does not trim
its fallback result — on " x " (no digits at all) it returns " x " rather
than the trimmed "x", so the claim is false of that variant. -/
theorem C3_counterexample_untrimmed_fallback :
    App.format_us_phone " x " = " x " ∧ App.format_us_phone " x " ≠ pyStrip " x " := by
  constructor
  · decide
  · decide

/-- C3 (amended): on inputs whose digit-stripped form is neither 10 digits
nor 11 digits starting with '1', the `Employee_List_Formatter.py` formatter
returns the trimmed original, while the part_000 variant returns the
original unchanged (untrimmed); both are total functions on strings. -/
theorem C3_fallback_amended (raw : String)
    (h10 : ¬ (digits_only raw).data.length = 10)
    (h11 : ¬ ((digits_only raw).data.length = 11 ∧
              (digits_only raw).data.head? = some '1')) :
    format_us_phone raw = pyStrip raw ∧ App.format_us_phone raw = raw := by
  constructor
  · unfold format_us_phone
    rw [if_neg h10, if_neg h11]
  · unfold App.format_us_phone
    rw [if_neg h10, if_neg h11]

/-- Witness for C3 at the concrete input " x ". -/
theorem C3_fallback_amended_witness :
    (¬ (digits_only " x ").data.length = 10) ∧
    (¬ ((digits_only " x ").data.length = 11 ∧
        (digits_only " x ").data.head? = some '1')) ∧
    format_us_phone " x " = pyStrip " x " ∧ App.format_us_phone " x " = " x " :=
  ⟨by decide, by decide, C3_fallback_amended " x " (by decide) (by decide)⟩


section DedupLemmas

theorem dedupGo_sublist (l : List Entry) :
    ∀ seen, List.Sublist (dedupGo seen l) l := by
  induction l with
  | nil => intro seen; simp [dedupGo]
  | cons e rest ih =>
    intro seen
    unfold dedupGo
    by_cases h : keyMem (key e) seen
    · simp only [h, if_true]
      exact List.Sublist.cons e (ih seen)
    · simp only [h, if_false]
      exact List.Sublist.cons₂ e (ih (key e :: seen))

theorem keyMem_cons (k k' : Key) (r : List Key) :
    keyMem k (k' :: r) = if k = k' then true else keyMem k r := rfl

/-- What the dedup loop keeps, per key: nothing if the key was already seen,
otherwise exactly the first entry of the list carrying that key. -/
theorem dedupGo_filter_key (k : Key) (l : List Entry) :
    ∀ seen, (dedupGo seen l).filter (fun e => decide (key e = k)) =
      (if keyMem k seen then []
       else ((l.find? (fun e => decide (key e = k))).toList)) := by
  induction l with
  | nil =>
    intro seen
    simp [dedupGo]
  | cons e rest ih =>
    intro seen
    unfold dedupGo
    by_cases hm : keyMem (key e) seen
    · simp only [hm, if_true]
      rw [ih seen]
      by_cases hk : keyMem k seen
      · simp [hk]
      · have hne : ¬ (key e = k) := by
          intro h
          rw [h] at hm
          exact hk hm
        simp [hk, List.find?, hne]
    · simp only [hm, Bool.false_eq_true, if_false]
      by_cases he : key e = k
      · subst he
        rw [List.filter_cons]
        simp only [decide_True, if_true]
        rw [ih (key e :: seen)]
        have hself : keyMem (key e) (key e :: seen) = true := by
          rw [keyMem_cons]; simp
        simp only [hself, if_true]
        have hk : keyMem (key e) seen = false := by
          simpa using hm
        simp [hk, List.find?]
      · rw [List.filter_cons]
        simp only [he, decide_False, if_false]
        rw [ih (key e :: seen)]
        have hcons : keyMem k (key e :: seen) = keyMem k seen := by
          rw [keyMem_cons]
          have : ¬ (k = key e) := fun h => he h.symm
          simp [this]
        rw [hcons]
        by_cases hk : keyMem k seen
        · simp [hk]
        · have : (decide (key e = k)) = false := by simpa using he
          simp [hk, List.find?, this]

end DedupLemmas

/-- C2: the dedup step keeps exactly the first occurrence of each identity
tuple `(name, position, office_raw, email)`, in input order (its output is a
sublist of its input, so relative order is preserved), and both extraction
pipelines apply this dedup to the entries collected in traversal order. -/
theorem C2_dedup_first_occurrence (l : List Entry) (k : Key) :
    List.Sublist (dedup l) l ∧
    (dedup l).filter (fun e => decide (key e = k)) =
      ((l.find? (fun e => decide (key e = k))).toList) ∧
    (∀ p, to_entries p = (collect_entries p).map dedup ∧
      App.to_directory_entries p = (App.collect_entries p).map dedup) := by
  refine ⟨dedupGo_sublist l [], ?_, fun p => ⟨rfl, rfl⟩⟩
  have h := dedupGo_filter_key k l []
  simpa [dedup, keyMem] using h

section DedupIdem

/-- Keys of entries kept by the loop are pairwise distinct and disjoint from
the `seen` set it started with. -/
theorem dedupGo_pairwise_keys (l : List Entry) :
    ∀ seen, List.Pairwise (fun a b => key a ≠ key b) (dedupGo seen l) ∧
      (∀ e ∈ dedupGo seen l, keyMem (key e) seen = false) := by
  induction l with
  | nil => intro seen; simp [dedupGo]
  | cons e rest ih =>
    intro seen
    unfold dedupGo
    by_cases hm : keyMem (key e) seen
    · simp only [hm, if_true]
      exact ih seen
    · simp only [hm, if_false]
      obtain ⟨hpw, hfresh⟩ := ih (key e :: seen)
      constructor
      · refine List.Pairwise.cons ?_ hpw
        intro b hb
        have := hfresh b hb
        rw [keyMem_cons] at this
        intro hcontra
        rw [← hcontra] at this
        simp at this
      · intro x hx
        rcases List.mem_cons.mp hx with hx | hx
        · subst hx; simpa using hm
        · have := hfresh x hx
          rw [keyMem_cons] at this
          by_cases hxe : key x = key e
          · rw [hxe] at this ⊢
            simp at this
          · simpa [hxe] using this

/-- On a list whose keys are pairwise distinct and all unseen, the dedup
loop is the identity. -/
theorem dedupGo_eq_self (l : List Entry) :
    ∀ seen, (∀ e ∈ l, keyMem (key e) seen = false) →
      List.Pairwise (fun a b => key a ≠ key b) l →
      dedupGo seen l = l := by
  induction l with
  | nil => intro seen _ _; rfl
  | cons e rest ih =>
    intro seen hfresh hpw
    unfold dedupGo
    have he : keyMem (key e) seen = false := hfresh e (by simp)
    simp only [he, Bool.false_eq_true, if_false]
    congr 1
    refine ih (key e :: seen) ?_ (List.Pairwise.sublist (List.sublist_cons_self e rest) hpw)
    intro x hx
    rw [keyMem_cons]
    have hxe : key x ≠ key e := by
      have := (List.pairwise_cons.mp hpw).1 x hx
      exact fun h => this h.symm
    have := hfresh x (by simp [hx])
    simp [hxe, this]

end DedupIdem

/-- C9: deduplication is idempotent — applying the dedup step to its own
output returns it unchanged — so rendering the deduplicated entries twice
yields identical output. -/
theorem C9_dedup_idempotent (l : List Entry) :
    dedup (dedup l) = dedup l ∧
    render_directory (dedup (dedup l)) = render_directory (dedup l) := by
  have h : dedup (dedup l) = dedup l := by
    unfold dedup
    obtain ⟨hpw, _⟩ := dedupGo_pairwise_keys l []
    exact dedupGo_eq_self (dedupGo [] l) [] (fun e _ => rfl) hpw
  exact ⟨h, congrArg render_directory h⟩


section TotalityLemmas

theorem pe_bind_ok {α β : Type} (x : α) (f : α → Except PyErr β) :
    (Except.ok x : Except PyErr α) >>= f = f x := rfl

theorem pe_bind_error {α β : Type} (e : PyErr) (f : α → Except PyErr β) :
    (Except.error e : Except PyErr α) >>= f = .error e := rfl

theorem pe_pure {α : Type} (x : α) : (pure x : Except PyErr α) = .ok x := rfl

theorem normalize_str_wf {j : Json} (h : wfField j = true) :
    ∃ s, normalize_str j = .ok s := by
  unfold normalize_str
  by_cases ht : truthy j
  · unfold wfField at h
    rw [ht] at h
    simp only [Bool.not_true, Bool.false_or] at h
    cases j <;> simp_all
  · simp [ht]

theorem extract_emp_wf {emp : Json} (h : wfEmp emp = true) (acc : List Entry) :
    ∃ acc', extract_emp acc emp = .ok acc' := by
  cases emp with
  | obj kvs =>
    unfold wfEmp at h
    simp only [Bool.and_eq_true] at h
    obtain ⟨⟨⟨h1, h2⟩, h3⟩, h4⟩ := h
    obtain ⟨s1, hs1⟩ := normalize_str_wf h1
    obtain ⟨s2, hs2⟩ := normalize_str_wf h2
    obtain ⟨s3, hs3⟩ := normalize_str_wf h3
    obtain ⟨s4, hs4⟩ := normalize_str_wf h4
    unfold extract_emp
    simp only [pyGet, pe_bind_ok, hs1, hs2, hs3, hs4]
    by_cases hn : s1 = ""
    · exact ⟨acc, by simp [hn, pe_pure]⟩
    · exact ⟨acc ++ [Entry.mk s1 s2 s3 (format_us_phone s3) s4], by simp [hn, pe_pure]⟩
  | null => exact Bool.noConfusion h
  | bool b => exact Bool.noConfusion h
  | num n => exact Bool.noConfusion h
  | str s => exact Bool.noConfusion h
  | arr xs => exact Bool.noConfusion h

end TotalityLemmas

theorem extract_emps_wf {es : List Json} (h : ∀ e ∈ es, wfEmp e = true) :
    ∀ acc, ∃ acc', extract_emps acc es = .ok acc' := by
  induction es with
  | nil => intro acc; exact ⟨acc, rfl⟩
  | cons e rest ih =>
    intro acc
    obtain ⟨acc1, hacc1⟩ := extract_emp_wf (h e (by simp)) acc
    obtain ⟨acc2, hacc2⟩ := ih (fun x hx => h x (by simp [hx])) acc1
    refine ⟨acc2, ?_⟩
    unfold extract_emps
    rw [hacc1, pe_bind_ok, hacc2]

theorem pyOr_falsy {j : Json} (h : truthy j = false) (d : Json) : pyOr j d = d := by
  simp [pyOr, h]

theorem pyOr_arr_default (es : List Json) :
    pyOr (.arr es) (.arr []) = .arr es := by
  by_cases h : truthy (Json.arr es)
  · simp [pyOr, h]
  · have he : es = [] := by
      simpa [truthy] using h
  
    simp [pyOr, h, he]

theorem wfEmps_elim {j : Json} (h : wfEmps j = true) :
    (∃ es, j = .arr es ∧ ∀ e ∈ es, wfEmp e = true) ∨ truthy j = false := by
  cases j with
  | arr es => exact Or.inl ⟨es, rfl, fun e he => List.all_eq_true.mp h e he⟩
  | null => exact Or.inr rfl
  | bool b => exact Or.inr (by simpa using (show (!truthy (Json.bool b)) = true from h))
  | num n => exact Or.inr (by simpa using (show (!truthy (Json.num n)) = true from h))
  | str s => exact Or.inr (by simpa using (show (!truthy (Json.str s)) = true from h))
  | obj kvs => exact Or.inr (by simpa using (show (!truthy (Json.obj kvs)) = true from h))

theorem extract_block_wf {b : Json} (h : wfBlock b = true) (acc : List Entry) :
    ∃ acc', extract_block acc b = .ok acc' := by
  by_cases ht : truthy b
  · cases b with
    | obj kvs =>
      have h2 : wfEmps (lookupD kvs "employees" (.arr [])) = true := by
        have h' := h
        unfold wfBlock at h'
        rw [if_pos ht] at h'
        exact h'
      unfold extract_block
      have hself : pyOr (.obj kvs) (.obj []) = .obj kvs := by simp [pyOr, ht]
      rw [hself]
      simp only [pyGet, pe_bind_ok]
      rcases wfEmps_elim h2 with ⟨es, hes, hwf⟩ | hfalsy
      · rw [hes, pyOr_arr_default]
        simp only [pyIter, pe_bind_ok]
        exact extract_emps_wf hwf acc
      · rw [pyOr_falsy hfalsy]
        exact ⟨acc, rfl⟩
    | null => exact Bool.noConfusion ht
    | bool v =>
      have : wfBlock (Json.bool v) = false := by
        unfold wfBlock; rw [if_pos ht]
      rw [this] at h; exact Bool.noConfusion h
    | num v =>
      have : wfBlock (Json.num v) = false := by
        unfold wfBlock; rw [if_pos ht]
      rw [this] at h; exact Bool.noConfusion h
    | str v =>
      have : wfBlock (Json.str v) = false := by
        unfold wfBlock; rw [if_pos ht]
      rw [this] at h; exact Bool.noConfusion h
    | arr v =>
      have : wfBlock (Json.arr v) = false := by
        unfold wfBlock; rw [if_pos ht]
      rw [this] at h; exact Bool.noConfusion h
  · refine ⟨acc, ?_⟩
    unfold extract_block
    rw [pyOr_falsy (by simpa using ht)]
    simp [pyGet, lookupD, pyOr, truthy, pyIter, pe_bind_ok, extract_emps]

theorem extract_blocks_wf {bs : List Json} (h : ∀ b ∈ bs, wfBlock b = true) :
    ∀ acc, ∃ acc', extract_blocks acc bs = .ok acc' := by
  induction bs with
  | nil => intro acc; exact ⟨acc, rfl⟩
  | cons b rest ih =>
    intro acc
    obtain ⟨acc1, hacc1⟩ := extract_block_wf (h b (by simp)) acc
    obtain ⟨acc2, hacc2⟩ := ih (fun x hx => h x (by simp [hx])) acc1
    refine ⟨acc2, ?_⟩
    unfold extract_blocks
    rw [hacc1, pe_bind_ok, hacc2]

theorem wfPayload_elim {p : Json} (h : wfPayload p = true) :
    ∃ kvs, p = .obj kvs ∧
      ((∃ bs, lookupD kvs "department_employees" (.arr []) = .arr bs ∧
          ∀ b ∈ bs, wfBlock b = true) ∨
        truthy (lookupD kvs "department_employees" (.arr [])) = false) := by
  cases p with
  | obj kvs =>
    refine ⟨kvs, rfl, ?_⟩
    have h' : (match lookupD kvs "department_employees" (.arr []) with
        | .arr bs => bs.all wfBlock
        | j => !(truthy j)) = true := h
    cases hv : lookupD kvs "department_employees" (.arr []) with
    | arr bs =>
      rw [hv] at h'
      exact Or.inl ⟨bs, rfl, fun b hb => List.all_eq_true.mp h' b hb⟩
    | null => exact Or.inr rfl
    | bool v =>
      rw [hv] at h'
      exact Or.inr (by simpa using (show (!truthy (Json.bool v)) = true from h'))
    | num v =>
      rw [hv] at h'
      exact Or.inr (by simpa using (show (!truthy (Json.num v)) = true from h'))
    | str v =>
      rw [hv] at h'
      exact Or.inr (by simpa using (show (!truthy (Json.str v)) = true from h'))
    | obj v =>
      rw [hv] at h'
      exact Or.inr (by simpa using (show (!truthy (Json.obj v)) = true from h'))
  | null => exact Bool.noConfusion h
  | bool v => exact Bool.noConfusion h
  | num v => exact Bool.noConfusion h
  | str v => exact Bool.noConfusion h
  | arr v => exact Bool.noConfusion h

theorem to_entries_wf {p : Json} (h : wfPayload p = true) :
    ∃ l, to_entries p = .ok l := by
  obtain ⟨kvs, rfl, hcase⟩ := wfPayload_elim h
  unfold to_entries collect_entries
  simp only [pyGet, pe_bind_ok]
  rcases hcase with ⟨bs, hbs, hwf⟩ | hfalsy
  · rw [hbs, pyOr_arr_default]
    simp only [pyIter, pe_bind_ok]
    obtain ⟨l, hl⟩ := extract_blocks_wf hwf []
    exact ⟨dedup l, by rw [hl]; rfl⟩
  · rw [pyOr_falsy hfalsy]
    exact ⟨[], rfl⟩

/-- C4 counterexample: a payload whose `department_employees` value is the
number 5 is not treated as an empty sequence — `for block in 5` raises
`TypeError`, so extraction is not total over arbitrary JSON values. -/
theorem C4_counterexample_truthy_nonsequence :
    to_entries (Json.obj [("department_employees", Json.num 5)]) =
      .error .typeError := by
  rfl

/-- C4 (amended): an absent or falsy `department_employees` value is treated
as the empty sequence with no error; extraction never raises on payloads of
the expected shape (an object whose `department_employees` is absent, falsy,
or an array of blocks, each falsy or an object whose `employees` is falsy or
an array of employee objects whose four contact fields are each absent,
falsy, or strings); and missing fields of an employee default to the empty
string.  (A truthy non-sequence `department_employees`, or a non-object
payload, raises instead of being treated as empty.) -/
theorem C4_extraction_tolerance_amended :
    (∀ kvs : List (String × Json),
      truthy (lookupD kvs "department_employees" (.arr [])) = false →
      to_entries (.obj kvs) = .ok []) ∧
    (∀ p : Json, wfPayload p = true → ∃ l, to_entries p = .ok l) ∧
    (∀ (acc : List Entry) (n : String), pyStrip n ≠ "" →
      extract_emp acc (.obj [("contact_name", .str n)]) =
        .ok (acc ++ [Entry.mk (pyStrip n) "" "" "" ""])) := by
  refine ⟨?_, ?_, ?_⟩
  · intro kvs h
    unfold to_entries collect_entries
    simp only [pyGet, pe_bind_ok]
    rw [pyOr_falsy h]
    rfl
  · intro p h
    exact to_entries_wf h
  · intro acc n hn
    have hne : n ≠ "" := by
      intro h0
      rw [h0] at hn
      exact hn rfl
    have htr : truthy (Json.str n) = true := by
      simpa [truthy] using hne
    unfold extract_emp
    simp only [pyGet, pe_bind_ok]
    have h1 : normalize_str
        (lookupD [("contact_name", Json.str n)] "contact_name" (Json.str "")) =
        .ok (pyStrip n) := by
      simp [lookupD, normalize_str, htr]
    have h2 : normalize_str
        (lookupD [("contact_name", Json.str n)] "employee_position" (Json.str "")) =
        .ok "" := by
      simp [lookupD, normalize_str, truthy]
    have h3 : normalize_str
        (lookupD [("contact_name", Json.str n)] "office_number" (Json.str "")) =
        .ok "" := by
      simp [lookupD, normalize_str, truthy]
    have h4 : normalize_str
        (lookupD [("contact_name", Json.str n)] "email_address" (Json.str "")) =
        .ok "" := by
      simp [lookupD, normalize_str, truthy]
    rw [h1, pe_bind_ok, if_neg hn, h2, pe_bind_ok, h3, pe_bind_ok, h4, pe_bind_ok]
    rfl

/-- Witness for C4 at concrete inputs: the empty object, a one-employee
payload, and the employee object `{"contact_name": " Jo "}`. -/
theorem C4_extraction_tolerance_amended_witness :
    (truthy (lookupD ([] : List (String × Json)) "department_employees" (.arr [])) = false ∧
      to_entries (.obj []) = .ok []) ∧
    (wfPayload (.obj [("department_employees", .arr [.obj [("employees",
        .arr [.obj [("contact_name", .str "Jo")]])]])]) = true ∧
      ∃ l, to_entries (.obj [("department_employees", .arr [.obj [("employees",
        .arr [.obj [("contact_name", .str "Jo")]])]])]) = .ok l) ∧
    (pyStrip " Jo " ≠ "" ∧
      extract_emp [] (.obj [("contact_name", .str " Jo ")]) =
        .ok ([] ++ [Entry.mk (pyStrip " Jo ") "" "" "" ""])) :=
  ⟨⟨by decide, C4_extraction_tolerance_amended.1 [] (by decide)⟩,
    ⟨by decide, C4_extraction_tolerance_amended.2.1 _ (by decide)⟩,
    ⟨by decide, C4_extraction_tolerance_amended.2.2 [] " Jo " (by decide)⟩⟩

section NameInvariant

theorem extract_emp_inv {acc acc' : List Entry} {emp : Json}
    (h : extract_emp acc emp = .ok acc') :
    acc' = acc ∨ ∃ e, acc' = acc ++ [e] ∧ e.name ≠ "" := by
  cases emp with
  | obj kvs =>
    unfold extract_emp at h
    simp only [pyGet, pe_bind_ok] at h
    cases h1 : normalize_str (lookupD kvs "contact_name" (Json.str "")) with
    | error e => rw [h1, pe_bind_error] at h; cases h
    | ok name =>
      rw [h1, pe_bind_ok] at h
      by_cases hn : name = ""
      · rw [if_pos hn, pe_pure] at h
        left
        exact (Except.ok.injEq _ _ |>.mp h).symm
      · rw [if_neg hn] at h
        cases h2 : normalize_str (lookupD kvs "employee_position" (Json.str "")) with
        | error e => rw [h2, pe_bind_error] at h; cases h
        | ok pos =>
          rw [h2, pe_bind_ok] at h
          cases h3 : normalize_str (lookupD kvs "office_number" (Json.str "")) with
          | error e => rw [h3, pe_bind_error] at h; cases h
          | ok office =>
            rw [h3, pe_bind_ok] at h
            cases h4 : normalize_str (lookupD kvs "email_address" (Json.str "")) with
            | error e => rw [h4, pe_bind_error] at h; cases h
            | ok email =>
              rw [h4, pe_bind_ok, pe_pure] at h
              right
              refine ⟨Entry.mk name pos office (format_us_phone office) email,
                (Except.ok.injEq _ _ |>.mp h).symm, hn⟩
  | null => cases h
  | bool b => cases h
  | num n => cases h
  | str s => cases h
  | arr xs => cases h

theorem extract_emps_names {es : List Json} : ∀ {acc acc' : List Entry},
    extract_emps acc es = .ok acc' → (∀ e ∈ acc, e.name ≠ "") →
    ∀ e ∈ acc', e.name ≠ "" := by
  induction es with
  | nil =>
    intro acc acc' h hacc
    have : acc' = acc := (Except.ok.injEq _ _ |>.mp h).symm
    rw [this]
    exact hacc
  | cons emp rest ih =>
    intro acc acc' h hacc
    unfold extract_emps at h
    cases hx : extract_emp acc emp with
    | error e => rw [hx, pe_bind_error] at h; cases h
    | ok acc1 =>
      rw [hx, pe_bind_ok] at h
      refine ih h ?_
      rcases extract_emp_inv hx with heq | ⟨e, heq, hne⟩
      · rw [heq]; exact hacc
      · rw [heq]
        intro x hx2
        rcases List.mem_append.mp hx2 with hx2 | hx2
        · exact hacc x hx2
        · rw [List.mem_singleton.mp hx2]; exact hne

theorem extract_block_names {b : Json} {acc acc' : List Entry}
    (h : extract_block acc b = .ok acc') (hacc : ∀ e ∈ acc, e.name ≠ "") :
    ∀ e ∈ acc', e.name ≠ "" := by
  unfold extract_block at h
  cases h1 : pyGet (pyOr b (.obj [])) "employees" (.arr []) with
  | error e => rw [h1, pe_bind_error] at h; cases h
  | ok emps =>
    rw [h1, pe_bind_ok] at h
    cases h2 : pyIter (pyOr emps (.arr [])) with
    | error e => rw [h2, pe_bind_error] at h; cases h
    | ok employees =>
      rw [h2, pe_bind_ok] at h
      exact extract_emps_names h hacc

theorem extract_blocks_names {bs : List Json} : ∀ {acc acc' : List Entry},
    extract_blocks acc bs = .ok acc' → (∀ e ∈ acc, e.name ≠ "") →
    ∀ e ∈ acc', e.name ≠ "" := by
  induction bs with
  | nil =>
    intro acc acc' h hacc
    have : acc' = acc := (Except.ok.injEq _ _ |>.mp h).symm
    rw [this]
    exact hacc
  | cons b rest ih =>
    intro acc acc' h hacc
    unfold extract_blocks at h
    cases hx : extract_block acc b with
    | error e => rw [hx, pe_bind_error] at h; cases h
    | ok acc1 =>
      rw [hx, pe_bind_ok] at h
      exact ih h (extract_block_names hx hacc)

theorem to_entries_names {p : Json} {l : List Entry}
    (h : to_entries p = .ok l) : ∀ e ∈ l, e.name ≠ "" := by
  unfold to_entries at h
  cases hc : collect_entries p with
  | error e => rw [hc] at h; cases h
  | ok raw =>
    rw [hc] at h
    have hl : l = dedup raw := by
      have : Except.ok (dedup raw) = Except.ok l := h
      exact (Except.ok.injEq _ _ |>.mp this).symm
    unfold collect_entries at hc
    cases h1 : pyGet p "department_employees" (.arr []) with
    | error e => rw [h1, pe_bind_error] at hc; cases hc
    | ok de =>
      rw [h1, pe_bind_ok] at hc
      cases h2 : pyIter (pyOr de (.arr [])) with
      | error e => rw [h2, pe_bind_error] at hc; cases hc
      | ok blocks =>
        rw [h2, pe_bind_ok] at hc
        have hraw := extract_blocks_names hc (by intro e he; cases he)
        intro e he
        rw [hl] at he
        exact hraw e ((dedupGo_sublist raw []).subset he)

end NameInvariant

section AppNameInvariant

theorem app_extract_emp_inv {acc acc' : List Entry} {emp : Json}
    (h : App.extract_emp acc emp = .ok acc') :
    acc' = acc ∨ ∃ e, acc' = acc ++ [e] ∧ e.name ≠ "" := by
  cases emp with
  | obj kvs =>
    unfold App.extract_emp at h
    simp only [pyGet, pe_bind_ok] at h
    cases h1 : App.normalize_name (lookupD kvs "contact_name" (Json.str "")) with
    | error e => rw [h1, pe_bind_error] at h; cases h
    | ok name =>
      rw [h1, pe_bind_ok] at h
      cases h2 : App.normalize_position (lookupD kvs "employee_position" (Json.str "")) with
      | error e => rw [h2, pe_bind_error] at h; cases h
      | ok pos =>
        rw [h2, pe_bind_ok] at h
        cases h3 : normalize_str (lookupD kvs "office_number" (Json.str "")) with
        | error e => rw [h3, pe_bind_error] at h; cases h
        | ok office =>
          rw [h3, pe_bind_ok] at h
          cases h4 : App.normalize_email (lookupD kvs "email_address" (Json.str "")) with
          | error e => rw [h4, pe_bind_error] at h; cases h
          | ok email =>
            rw [h4, pe_bind_ok] at h
            by_cases hn : name = ""
            · rw [if_pos hn, pe_pure] at h
              left
              exact (Except.ok.injEq _ _ |>.mp h).symm
            · rw [if_neg hn, pe_pure] at h
              right
              exact ⟨Entry.mk name pos office (App.format_us_phone office) email,
                (Except.ok.injEq _ _ |>.mp h).symm, hn⟩
  | null => cases h
  | bool b => cases h
  | num n => cases h
  | str s => cases h
  | arr xs => cases h

theorem app_extract_emps_names {es : List Json} : ∀ {acc acc' : List Entry},
    App.extract_emps acc es = .ok acc' → (∀ e ∈ acc, e.name ≠ "") →
    ∀ e ∈ acc', e.name ≠ "" := by
  induction es with
  | nil =>
    intro acc acc' h hacc
    have : acc' = acc := (Except.ok.injEq _ _ |>.mp h).symm
    rw [this]
    exact hacc
  | cons emp rest ih =>
    intro acc acc' h hacc
    unfold App.extract_emps at h
    cases hx : App.extract_emp acc emp with
    | error e => rw [hx, pe_bind_error] at h; cases h
    | ok acc1 =>
      rw [hx, pe_bind_ok] at h
      refine ih h ?_
      rcases app_extract_emp_inv hx with heq | ⟨e, heq, hne⟩
      · rw [heq]; exact hacc
      · rw [heq]
        intro x hx2
        rcases List.mem_append.mp hx2 with hx2 | hx2
        · exact hacc x hx2
        · rw [List.mem_singleton.mp hx2]; exact hne

theorem app_extract_block_names {b : Json} {acc acc' : List Entry}
    (h : App.extract_block acc b = .ok acc') (hacc : ∀ e ∈ acc, e.name ≠ "") :
    ∀ e ∈ acc', e.name ≠ "" := by
  unfold App.extract_block at h
  cases h1 : pyGet (pyOr b (.obj [])) "employees" (.arr []) with
  | error e => rw [h1, pe_bind_error] at h; cases h
  | ok emps =>
    rw [h1, pe_bind_ok] at h
    cases h2 : pyIter (pyOr emps (.arr [])) with
    | error e => rw [h2, pe_bind_error] at h; cases h
    | ok employees =>
      rw [h2, pe_bind_ok] at h
      exact app_extract_emps_names h hacc

theorem app_extract_blocks_names {bs : List Json} : ∀ {acc acc' : List Entry},
    App.extract_blocks acc bs = .ok acc' → (∀ e ∈ acc, e.name ≠ "") →
    ∀ e ∈ acc', e.name ≠ "" := by
  induction bs with
  | nil =>
    intro acc acc' h hacc
    have : acc' = acc := (Except.ok.injEq _ _ |>.mp h).symm
    rw [this]
    exact hacc
  | cons b rest ih =>
    intro acc acc' h hacc
    unfold App.extract_blocks at h
    cases hx : App.extract_block acc b with
    | error e => rw [hx, pe_bind_error] at h; cases h
    | ok acc1 =>
      rw [hx, pe_bind_ok] at h
      exact ih h (app_extract_block_names hx hacc)

theorem app_to_directory_entries_names {p : Json} {l : List Entry}
    (h : App.to_directory_entries p = .ok l) : ∀ e ∈ l, e.name ≠ "" := by
  unfold App.to_directory_entries at h
  cases hc : App.collect_entries p with
  | error e => rw [hc] at h; cases h
  | ok raw =>
    rw [hc] at h
    have hl : l = dedup raw := by
      have : Except.ok (dedup raw) = Except.ok l := h
      exact (Except.ok.injEq _ _ |>.mp this).symm
    unfold App.collect_entries at hc
    cases h1 : pyGet p "department_employees" (.arr []) with
    | error e => rw [h1, pe_bind_error] at hc; cases hc
    | ok de =>
      rw [h1, pe_bind_ok] at hc
      cases h2 : pyIter (pyOr de (.arr [])) with
      | error e => rw [h2, pe_bind_error] at hc; cases hc
      | ok blocks =>
        rw [h2, pe_bind_ok] at hc
        have hraw := app_extract_blocks_names hc (by intro e he; cases he)
        intro e he
        rw [hl] at he
        exact hraw e ((dedupGo_sublist raw []).subset he)

end AppNameInvariant

theorem extract_emp_skip {kvs : List (String × Json)} (acc : List Entry)
    (h : normalize_str (lookupD kvs "contact_name" (.str "")) = .ok "") :
    extract_emp acc (.obj kvs) = .ok acc := by
  unfold extract_emp
  simp only [pyGet, pe_bind_ok]
  rw [h, pe_bind_ok, if_pos rfl]
  rfl

theorem extract_emps_skip_empty_name {kvs : List (String × Json)}
    (h : normalize_str (lookupD kvs "contact_name" (.str "")) = .ok "")
    (pre : List Json) :
    ∀ (post : List Json) (acc : List Entry),
      extract_emps acc (pre ++ Json.obj kvs :: post) =
        extract_emps acc (pre ++ post) := by
  induction pre with
  | nil =>
    intro post acc
    have e1 : extract_emps acc (([] : List Json) ++ Json.obj kvs :: post) =
        (extract_emp acc (Json.obj kvs)) >>= fun a => extract_emps a post := rfl
    rw [e1, extract_emp_skip acc h, pe_bind_ok]
    rfl
  | cons p1 pre ih =>
    intro post acc
    have e1 : extract_emps acc ((p1 :: pre) ++ Json.obj kvs :: post) =
        (extract_emp acc p1) >>= fun a => extract_emps a (pre ++ Json.obj kvs :: post) := rfl
    have e2 : extract_emps acc ((p1 :: pre) ++ post) =
        (extract_emp acc p1) >>= fun a => extract_emps a (pre ++ post) := rfl
    rw [e1, e2]
    cases hx : extract_emp acc p1 with
    | error e => rw [pe_bind_error, pe_bind_error]
    | ok a =>
      rw [pe_bind_ok, pe_bind_ok]
      exact ih post a

/-- C7 counterexample: an employee whose name is whitespace-only is *not*
dropped silently by the part_000 extractor when another field is a truthy
non-string — it normalizes every field before testing the name, so
`{"contact_name": "   ", "employee_position": 7}` raises `AttributeError`
there, while the main extractor drops it and returns the empty list. -/
theorem C7_counterexample_app_variant_raises :
    App.to_directory_entries (Json.obj [("department_employees",
        Json.arr [Json.obj [("employees", Json.arr [Json.obj
          [("contact_name", Json.str "   "), ("employee_position", Json.num 7)]])]])]) =
      .error .attributeError ∧
    to_entries (Json.obj [("department_employees",
        Json.arr [Json.obj [("employees", Json.arr [Json.obj
          [("contact_name", Json.str "   "), ("employee_position", Json.num 7)]])]])]) =
      .ok [] :=
  ⟨rfl, rfl⟩

/-- C7 (amended): in the main extractor, an employee object whose normalized
`contact_name` is empty contributes nothing and raises nothing — deleting it
from its `employees` array never changes the extraction result; and in both
variants, every entry the extractor returns has a non-empty name.  (In the
part_000 variant such an employee can still raise, because all its other
fields are normalized before the name test.) -/
theorem C7_empty_name_dropped_amended :
    (∀ (kv : List (String × Json)) (pre post : List Json) (acc : List Entry),
      normalize_str (lookupD kv "contact_name" (.str "")) = .ok "" →
      extract_emps acc (pre ++ Json.obj kv :: post) =
        extract_emps acc (pre ++ post)) ∧
    (∀ (p : Json) (l : List Entry), to_entries p = .ok l →
      ∀ e ∈ l, e.name ≠ "") ∧
    (∀ (p : Json) (l : List Entry), App.to_directory_entries p = .ok l →
      ∀ e ∈ l, e.name ≠ "") :=
  ⟨fun _kv pre post acc h => extract_emps_skip_empty_name h pre post acc,
    fun _ _ h => to_entries_names h,
    fun _ _ h => app_to_directory_entries_names h⟩

/-- Witness for C7: a whitespace-only-name employee object is skipped by the
employees loop, and the name invariant holds at a concrete payload. -/
theorem C7_empty_name_dropped_amended_witness :
    (normalize_str (lookupD [("contact_name", Json.str "  ")] "contact_name" (.str "")) =
        .ok "" ∧
      extract_emps [] ([] ++ Json.obj [("contact_name", Json.str "  ")] :: []) =
        extract_emps [] ([] ++ [])) ∧
    (to_entries (.obj []) = .ok [] ∧ ∀ e ∈ ([] : List Entry), e.name ≠ "") ∧
    (App.to_directory_entries (.obj []) = .ok [] ∧
      ∀ e ∈ ([] : List Entry), e.name ≠ "") :=
  ⟨⟨rfl,
      C7_empty_name_dropped_amended.1 [("contact_name", Json.str "  ")] [] [] []
        rfl⟩,
    ⟨rfl, C7_empty_name_dropped_amended.2.1 (.obj []) [] rfl⟩,
    ⟨rfl, C7_empty_name_dropped_amended.2.2 (.obj []) [] rfl⟩⟩

section StripLemmas

theorem rstripL_cons (c : Char) (r : List Char) :
    rstripL (c :: r) =
      if (rstripL r).isEmpty && c.isWhitespace then [] else c :: rstripL r := rfl

theorem rstripL_idem (l : List Char) : rstripL (rstripL l) = rstripL l := by
  induction l with
  | nil => rfl
  | cons c r ih =>
    rw [rstripL_cons]
    by_cases hc : (rstripL r).isEmpty && c.isWhitespace
    · rw [if_pos hc]
      rfl
    · rw [if_neg hc, rstripL_cons, ih, if_neg hc]

theorem dropWhile_head_false {p : Char → Bool} :
    ∀ {l : List Char} {c : Char} {r : List Char},
      l.dropWhile p = c :: r → p c = false := by
  intro l
  induction l with
  | nil => intro c r h; cases h
  | cons a t ih =>
    intro c r h
    by_cases ha : p a
    · rw [List.dropWhile_cons_of_pos ha] at h
      exact ih h
    · rw [List.dropWhile_cons_of_neg ha] at h
      have : a = c := (List.cons.injEq _ _ _ _ |>.mp h).1
      rw [← this]
      simpa using ha

theorem dropWhile_rstripL_dropWhile (cs : List Char) :
    (rstripL (cs.dropWhile Char.isWhitespace)).dropWhile Char.isWhitespace =
      rstripL (cs.dropWhile Char.isWhitespace) := by
  cases hd : cs.dropWhile Char.isWhitespace with
  | nil => rfl
  | cons c r =>
    have hc : c.isWhitespace = false := dropWhile_head_false hd
    rw [rstripL_cons]
    by_cases hcc : (rstripL r).isEmpty && c.isWhitespace
    · rw [if_pos hcc]
      rfl
    · rw [if_neg hcc]
      exact List.dropWhile_cons_of_neg (by simp [hc])

theorem pyStrip_idem (s : String) : pyStrip (pyStrip s) = pyStrip s := by
  unfold pyStrip
  have hdata : (String.mk (rstripL (s.data.dropWhile Char.isWhitespace))).data =
      rstripL (s.data.dropWhile Char.isWhitespace) := rfl
  rw [hdata, dropWhile_rstripL_dropWhile, rstripL_idem]

theorem normalize_str_trimmed {j : Json} {s : String}
    (h : normalize_str j = .ok s) : pyStrip s = s := by
  unfold normalize_str at h
  by_cases ht : truthy j
  · rw [if_pos ht] at h
    cases j with
    | str s0 =>
      have hs : pyStrip s0 = s := Except.ok.injEq _ _ |>.mp h
      rw [← hs]
      exact pyStrip_idem s0
    | null => cases h
    | bool b => cases h
    | num n => cases h
    | arr xs => cases h
    | obj kvs => cases h
  · rw [if_neg ht] at h
    have hs : "" = s := Except.ok.injEq _ _ |>.mp h
    rw [← hs]
    rfl

end StripLemmas

section VariantRefinement

theorem app_normalize_name_eq : App.normalize_name = normalize_str := rfl

theorem app_normalize_position_eq : App.normalize_position = normalize_str := rfl

theorem app_normalize_email_eq (j : Json) : App.normalize_email j = normalize_str j := by
  unfold App.normalize_email normalize_str
  by_cases ht : truthy j
  · rw [if_pos ht]
    cases j with
    | str s =>
      by_cases hs : pyStrip s = ""
      · simp [pe_bind_ok, pe_pure, hs]
      · simp [pe_bind_ok, pe_pure, hs]
    | null => rfl
    | bool b => rfl
    | num n => rfl
    | arr xs => rfl
    | obj kvs => rfl
  · rw [if_neg ht]
    rfl

theorem format_us_phone_agree {s : String} (h : pyStrip s = s) :
    App.format_us_phone s = format_us_phone s := by
  unfold format_us_phone App.format_us_phone
  by_cases h10 : (digits_only s).data.length = 10
  · rw [if_pos h10, if_pos h10]
  · rw [if_neg h10, if_neg h10]
    by_cases h11 : (digits_only s).data.length = 11 ∧
        (digits_only s).data.head? = some '1'
    · rw [if_pos h11, if_pos h11]
    · rw [if_neg h11, if_neg h11, h]

theorem app_extract_emp_to_main {acc acc' : List Entry} {emp : Json}
    (h : App.extract_emp acc emp = .ok acc') :
    extract_emp acc emp = .ok acc' := by
  cases emp with
  | obj kvs =>
    unfold App.extract_emp at h
    rw [app_normalize_name_eq, app_normalize_position_eq] at h
    simp only [pyGet, pe_bind_ok, app_normalize_email_eq] at h
    unfold extract_emp
    simp only [pyGet, pe_bind_ok]
    cases h1 : normalize_str (lookupD kvs "contact_name" (Json.str "")) with
    | error e => rw [h1, pe_bind_error] at h; cases h
    | ok name =>
      rw [h1, pe_bind_ok] at h
      rw [pe_bind_ok]
      cases h2 : normalize_str (lookupD kvs "employee_position" (Json.str "")) with
      | error e => rw [h2, pe_bind_error] at h; cases h
      | ok pos =>
        rw [h2, pe_bind_ok] at h
        cases h3 : normalize_str (lookupD kvs "office_number" (Json.str "")) with
        | error e => rw [h3, pe_bind_error] at h; cases h
        | ok office =>
          rw [h3, pe_bind_ok] at h
          cases h4 : normalize_str (lookupD kvs "email_address" (Json.str "")) with
          | error e => rw [h4, pe_bind_error] at h; cases h
          | ok email =>
            rw [h4, pe_bind_ok] at h
            by_cases hn : name = ""
            · rw [if_pos hn] at h
              rw [if_pos hn]
              exact h
            · rw [if_neg hn] at h
              rw [if_neg hn, pe_bind_ok, pe_bind_ok, pe_bind_ok]
              rw [format_us_phone_agree (normalize_str_trimmed h3)] at h
              exact h
  | null => cases h
  | bool b => cases h
  | num n => cases h
  | str s => cases h
  | arr xs => cases h

theorem app_extract_emps_to_main {es : List Json} : ∀ {acc acc' : List Entry},
    App.extract_emps acc es = .ok acc' → extract_emps acc es = .ok acc' := by
  induction es with
  | nil => intro acc acc' h; exact h
  | cons emp rest ih =>
    intro acc acc' h
    unfold App.extract_emps at h
    unfold extract_emps
    cases hx : App.extract_emp acc emp with
    | error e => rw [hx, pe_bind_error] at h; cases h
    | ok acc1 =>
      rw [hx, pe_bind_ok] at h
      rw [app_extract_emp_to_main hx, pe_bind_ok]
      exact ih h

theorem app_extract_block_to_main {b : Json} {acc acc' : List Entry}
    (h : App.extract_block acc b = .ok acc') :
    extract_block acc b = .ok acc' := by
  unfold App.extract_block at h
  unfold extract_block
  cases h1 : pyGet (pyOr b (.obj [])) "employees" (.arr []) with
  | error e => rw [h1, pe_bind_error] at h; cases h
  | ok emps =>
    rw [h1, pe_bind_ok] at h
    rw [pe_bind_ok]
    cases h2 : pyIter (pyOr emps (.arr [])) with
    | error e => rw [h2, pe_bind_error] at h; cases h
    | ok employees =>
      rw [h2, pe_bind_ok] at h
      rw [pe_bind_ok]
      exact app_extract_emps_to_main h

theorem app_extract_blocks_to_main {bs : List Json} : ∀ {acc acc' : List Entry},
    App.extract_blocks acc bs = .ok acc' → extract_blocks acc bs = .ok acc' := by
  induction bs with
  | nil => intro acc acc' h; exact h
  | cons b rest ih =>
    intro acc acc' h
    unfold App.extract_blocks at h
    unfold extract_blocks
    cases hx : App.extract_block acc b with
    | error e => rw [hx, pe_bind_error] at h; cases h
    | ok acc1 =>
      rw [hx, pe_bind_ok] at h
      rw [app_extract_block_to_main hx, pe_bind_ok]
      exact ih h

end VariantRefinement

/-- C10 counterexample: the two extraction variants are not equal on every
payload.  On an employee with an empty name and a numeric position, the main
`to_entries` skips the employee (the name test comes first) and returns the
empty list, while part_000's `to_directory_entries` normalizes the position
before testing the name and raises `AttributeError`. -/
theorem C10_counterexample_nameless_numeric_field :
    to_entries (Json.obj [("department_employees",
        Json.arr [Json.obj [("employees", Json.arr [Json.obj
          [("contact_name", Json.str ""), ("employee_position", Json.num 5)]])]])]) =
      .ok [] ∧
    App.to_directory_entries (Json.obj [("department_employees",
        Json.arr [Json.obj [("employees", Json.arr [Json.obj
          [("contact_name", Json.str ""), ("employee_position", Json.num 5)]])]])]) =
      .error .attributeError :=
  ⟨rfl, rfl⟩

/-- C10 (amended): whenever part_000's `to_directory_entries` returns an
entry list, the main `to_entries` returns the very same list (same five
fields, same order); the converse fails only on payloads where part_000
raises while normalizing a field of an employee that the main variant has
already skipped for having an empty name. -/
theorem C10_variants_agree_amended (p : Json) (l : List Entry)
    (h : App.to_directory_entries p = .ok l) : to_entries p = .ok l := by
  unfold App.to_directory_entries at h
  unfold to_entries
  cases hc : App.collect_entries p with
  | error e => rw [hc] at h; cases h
  | ok raw =>
    rw [hc] at h
    have hmain : collect_entries p = .ok raw := by
      unfold App.collect_entries at hc
      unfold collect_entries
      cases h1 : pyGet p "department_employees" (.arr []) with
      | error e => rw [h1, pe_bind_error] at hc; cases hc
      | ok de =>
        rw [h1, pe_bind_ok] at hc
        rw [pe_bind_ok]
        cases h2 : pyIter (pyOr de (.arr [])) with
        | error e => rw [h2, pe_bind_error] at hc; cases hc
        | ok blocks =>
          rw [h2, pe_bind_ok] at hc
          rw [pe_bind_ok]
          exact app_extract_blocks_to_main hc
    rw [hmain]
    exact h

/-- Witness for C10 at a concrete one-employee payload. -/
theorem C10_variants_agree_amended_witness :
    App.to_directory_entries (Json.obj [("department_employees",
        Json.arr [Json.obj [("employees", Json.arr [Json.obj
          [("contact_name", Json.str "Jane Doe"),
           ("employee_position", Json.str "Manager"),
           ("office_number", Json.str "555-123-4567"),
           ("email_address", Json.str "jane@x.com")]])]])]) =
      .ok [Entry.mk "Jane Doe" "Manager" "555-123-4567" "(555) 123-4567" "jane@x.com"] ∧
    to_entries (Json.obj [("department_employees",
        Json.arr [Json.obj [("employees", Json.arr [Json.obj
          [("contact_name", Json.str "Jane Doe"),
           ("employee_position", Json.str "Manager"),
           ("office_number", Json.str "555-123-4567"),
           ("email_address", Json.str "jane@x.com")]])]])]) =
      .ok [Entry.mk "Jane Doe" "Manager" "555-123-4567" "(555) 123-4567" "jane@x.com"] :=
  ⟨rfl, C10_variants_agree_amended _ _ rfl⟩

/-- C8: a JSON parse failure yields the distinct `invalidJson` outcome
carrying a non-empty message (extraction and rendering are never reached:
the outcome carries the parser message, not a directory); a successful parse
that yields zero entries gives the distinct `noData` outcome, not an
exception and not a rendered directory; and the three outcome kinds are
pairwise distinct. -/
theorem C8_button_handler_outcomes :
    (∀ msg : String,
      generate_directory (.error msg) = .invalidJson ("Invalid JSON: " ++ msg) ∧
      "Invalid JSON: " ++ msg ≠ "") ∧
    (∀ p : Json, to_entries p = .ok [] → generate_directory (.ok p) = .noData) ∧
    (∀ m d : String,
      RunOutcome.invalidJson m ≠ RunOutcome.noData ∧
      RunOutcome.invalidJson m ≠ RunOutcome.success d ∧
      RunOutcome.noData ≠ RunOutcome.success d) := by
  refine ⟨?_, ?_, ?_⟩
  · intro msg
    refine ⟨rfl, ?_⟩
    intro hcontra
    have hlen := congrArg String.length hcontra
    rw [String.length_append] at hlen
    have h14 : ("Invalid JSON: " : String).length = 14 := rfl
    have h0 : ("" : String).length = 0 := rfl
    omega
  · intro p h
    have e1 : generate_directory (.ok p) =
        (match to_entries p with
          | .error e => RunOutcome.pyError e
          | .ok entries =>
            if entries.isEmpty then .noData
            else .success (render_directory entries)) := rfl
    rw [e1, h]
    rfl
  · intro m d
    exact ⟨fun h => RunOutcome.noConfusion h, fun h => RunOutcome.noConfusion h,
      fun h => RunOutcome.noConfusion h⟩

/-- Witness for C8 at a concrete parser message and the empty payload. -/
theorem C8_button_handler_outcomes_witness :
    (generate_directory (.error "Expecting value: line 1 column 1 (char 0)") =
        .invalidJson ("Invalid JSON: " ++ "Expecting value: line 1 column 1 (char 0)") ∧
      "Invalid JSON: " ++ "Expecting value: line 1 column 1 (char 0)" ≠ "") ∧
    (to_entries (.obj []) = .ok [] ∧ generate_directory (.ok (.obj [])) = .noData) ∧
    (RunOutcome.invalidJson "Invalid JSON: x" ≠ RunOutcome.noData ∧
      RunOutcome.invalidJson "Invalid JSON: x" ≠ RunOutcome.success "d" ∧
      RunOutcome.noData ≠ RunOutcome.success "d") :=
  ⟨C8_button_handler_outcomes.1 "Expecting value: line 1 column 1 (char 0)",
    ⟨rfl, C8_button_handler_outcomes.2.1 (.obj []) rfl⟩,
    C8_button_handler_outcomes.2.2 "Invalid JSON: x" "d"⟩

section RenderLemmas

theorem rstripL_congr {A B : List Char} (c : Char) (h : rstripL A = rstripL B) :
    rstripL (c :: A) = rstripL (c :: B) := by
  rw [rstripL_cons, rstripL_cons, h]

theorem collapseGo_cons (k : Nat) (c : Char) (rest : List Char) :
    collapseGo k (c :: rest) =
      if c = '\n' then
        if 2 ≤ k then collapseGo k rest
        else c :: collapseGo (k + 1) rest
      else c :: collapseGo 0 rest := rfl

theorem rstripL_collapseGo_append_newline (cs : List Char) :
    ∀ k, rstripL (collapseGo k (cs ++ ['\n'])) = rstripL (collapseGo k cs) := by
  induction cs with
  | nil =>
    intro k
    show rstripL (collapseGo k ['\n']) = rstripL (collapseGo k [])
    rw [collapseGo_cons]
    by_cases hk : 2 ≤ k
    · rw [if_pos rfl, if_pos hk]
    · rw [if_pos rfl, if_neg hk]
      rfl
  | cons c r ih =>
    intro k
    have happ : (c :: r) ++ ['\n'] = c :: (r ++ ['\n']) := rfl
    rw [happ, collapseGo_cons, collapseGo_cons]
    by_cases hc : c = '\n'
    · rw [if_pos hc, if_pos hc]
      by_cases hk : 2 ≤ k
      · rw [if_pos hk, if_pos hk]
        exact ih k
      · rw [if_neg hk, if_neg hk]
        exact rstripL_congr c (ih (k + 1))
    · rw [if_neg hc, if_neg hc]
      exact rstripL_congr c (ih 0)

theorem postprocess_append_newline (s : String) :
    postprocess (s ++ "\n") = postprocess s := by
  unfold postprocess collapse_newlines
  have hdata : (s ++ "\n").data = s.data ++ ['\n'] := by
    rw [String.data_append]
  rw [hdata, rstripL_collapseGo_append_newline]

theorem concatS_cons (s : String) (rest : List String) :
    concatS (s :: rest) = s ++ concatS rest := rfl

theorem concatS_append (a b : List String) :
    concatS (a ++ b) = concatS a ++ concatS b := by
  induction a with
  | nil => rw [List.nil_append]; exact (String.empty_append _).symm
  | cons x rest ih =>
    rw [List.cons_append, concatS_cons, concatS_cons, ih, String.append_assoc]

theorem joinNL_append_newline :
    ∀ ls : List String, ls ≠ [] →
      joinNL ls ++ "\n" = concatS (ls.map (fun l => l ++ "\n")) := by
  intro ls
  induction ls with
  | nil => intro h; exact absurd rfl h
  | cons x rest ih =>
    intro _
    cases rest with
    | nil =>
      show joinNL [x] ++ "\n" = concatS [x ++ "\n"]
      simp [joinNL, concatS]
    | cons y rest2 =>
      have hj : joinNL (x :: y :: rest2) = (x ++ "\n") ++ joinNL (y :: rest2) := rfl
      rw [hj, String.append_assoc, ih (by simp)]
      simp [concatS_cons, String.append_assoc]

theorem concatS_flatMap (f : String → String) (g : Entry → List String)
    (l : List Entry) :
    concatS ((l.flatMap g).map f) =
      concatS (l.map (fun x => concatS ((g x).map f))) := by
  induction l with
  | nil => rfl
  | cons x rest ih =>
    rw [List.flatMap_cons, List.map_append, concatS_append, ih, List.map_cons,
      concatS_cons]

theorem entry_block_eq (e : Entry) :
    concatS ((entry_lines e).map (fun l => l ++ "\n")) = entry_block e := by
  unfold entry_lines entry_block
  by_cases h1 : e.position = "" <;> by_cases h2 : e.office_fmt = "" <;>
    by_cases h3 : e.email = "" <;>
    simp [h1, h2, h3, concatS, String.append_assoc]

end RenderLemmas

/-- C1 counterexample: the part_000 renderer does not satisfy the claim —
for an entry with an empty position it emits an empty line in place of the
position, which survives post-processing as a blank line between the name
and the `Office:` line, so its output differs from the claimed text. -/
theorem C1_counterexample_markdown_variant :
    App.render_directory_markdown [Entry.mk "Ann" "" "12" "12" "a@b.c"] =
      "## Employee Phone Number Directory\n\n    Ann\n\nOffice: 12\nEmail: a@b.c\n" ∧
    renderSpec [Entry.mk "Ann" "" "12" "12" "a@b.c"] =
      "## Employee Phone Number Directory\n\n    Ann\nOffice: 12\nEmail: a@b.c\n" ∧
    App.render_directory_markdown [Entry.mk "Ann" "" "12" "12" "a@b.c"] ≠
      renderSpec [Entry.mk "Ann" "" "12" "12" "a@b.c"] :=
  ⟨rfl, rfl, by decide⟩

/-- C1 (amended): `render_directory` in `Employee_List_Formatter.py`
produces, for every non-empty entry list, exactly the claimed text: the
header line and one blank line, then per entry the four-space-indented name,
the position / `Office:` / `Email:` lines only when non-empty and a blank
separator line, with runs of three or more newlines collapsed to two,
trailing whitespace trimmed, and exactly one final newline.  The part_000
variant `render_directory_markdown` differs: it emits an extra blank line in
place of an empty position. -/
theorem C1_render_directory_amended (entries : List Entry)
    (_hne : entries ≠ []) :
    render_directory entries = renderSpec entries := by
  unfold render_directory renderSpec
  rw [← postprocess_append_newline (joinNL (["## Employee Phone Number Directory", ""]
    ++ entries.flatMap entry_lines))]
  congr 1
  rw [joinNL_append_newline _ (by simp), List.map_append, concatS_append,
    concatS_flatMap]
  simp only [entry_block_eq]
  congr 1

/-- Witness for C1 at a concrete one-entry list. -/
theorem C1_render_directory_amended_witness :
    ([Entry.mk "Jane Doe" "Manager" "555-123-4567" "(555) 123-4567" "jane@x.com"] ≠
        ([] : List Entry)) ∧
    render_directory
        [Entry.mk "Jane Doe" "Manager" "555-123-4567" "(555) 123-4567" "jane@x.com"] =
      renderSpec
        [Entry.mk "Jane Doe" "Manager" "555-123-4567" "(555) 123-4567" "jane@x.com"] :=
  ⟨by decide, C1_render_directory_amended _ (by decide)⟩
